import Mathlib

/-!
Verification of the carla_cil_pytorch training core (`main.py`, `helper.py`).

Tensors are modelled as flat lists of rationals; elementwise tensor
operations become `List.zipWith` / `List.map`, and `torch.mean` becomes
sum divided by length.  The exponential `torch.exp` is abstracted as an
arbitrary function `E : ℚ → ℚ` threaded through the loss definitions
(facts that depend on `exp 0 = 1` take that as a hypothesis).
-/

namespace CarlaCIL

/-! ### Tensor primitives -/

/-- Elementwise subtraction of two same-shape tensors. -/
def tsub (a b : List ℚ) : List ℚ := List.zipWith (· - ·) a b

/-- Elementwise product of two same-shape tensors. -/
def tmul (a b : List ℚ) : List ℚ := List.zipWith (· * ·) a b

/-- Elementwise sum of two same-shape tensors. -/
def tadd (a b : List ℚ) : List ℚ := List.zipWith (· + ·) a b

/-- `torch.pow(t, 2)` elementwise. -/
def tsq (a : List ℚ) : List ℚ := a.map (fun x => x ^ 2)

/-- Multiplication of a tensor by a scalar (`t * c`). -/
def tscale (c : ℚ) (a : List ℚ) : List ℚ := a.map (fun x => x * c)

/-- Elementwise negation (`-t`). -/
def tneg (a : List ℚ) : List ℚ := a.map (fun x => -x)

/-- `torch.exp` elementwise, with the scalar exponential abstract. -/
def texp (E : ℚ → ℚ) (a : List ℚ) : List ℚ := a.map E

/-- `torch.mean`: sum of all elements over the element count. -/
def tmean (a : List ℚ) : ℚ := a.sum / (a.length : ℚ)

/-! ### Loss engine

Embedded from `main.py`.  `train`, uncertainty branch (lines 190-196):

    branch_square = torch.pow((branches_out-target), 2)
    branch_loss = torch.mean((torch.exp(-log_var_control)*branch_square
                              + log_var_speed)*0.5*mask)*4
    speed_square = torch.pow((pred_speed-speed), 2)
    speed_loss = torch.mean((torch.exp(-log_var_speed)*speed_square
                             + log_var_speed)*0.5)
    uncertain_loss = args.branch_weight*branch_loss
                     + args.speed_weight*speed_loss
-/

/-- The three per-batch loss values computed by an epoch runner. -/
structure BatchLosses where
  branch_loss : ℚ
  speed_loss : ℚ
  uncertain_loss : ℚ
deriving DecidableEq

/-- `train`, uncertainty mode (`args.net_structure != 1`), main.py lines
190-196: the regularizer added inside the branch loss is
`log_var_speed`, exactly as in the source.  The single tensor
`log_var_speed` of the source is broadcast against two different
shapes (the branch output inside `branch_loss`, the speed output inside
`speed_loss`); the two broadcasts appear here as `log_var_speed`
(branch-shaped) and `log_var_speed_s` (speed-shaped). -/
def train_batch_uncertainty (E : ℚ → ℚ) (branch_weight speed_weight : ℚ)
    (branches_out target log_var_control log_var_speed : List ℚ)
    (pred_speed speed log_var_speed_s : List ℚ) (mask : List ℚ) :
    BatchLosses :=
  let branch_square := tsq (tsub branches_out target)
  let branch_loss :=
    tmean (tmul (tscale (1/2)
      (tadd (tmul (texp E (tneg log_var_control)) branch_square)
        log_var_speed)) mask) * 4
  let speed_square := tsq (tsub pred_speed speed)
  let speed_loss :=
    tmean (tscale (1/2)
      (tadd (tmul (texp E (tneg log_var_speed_s)) speed_square)
        log_var_speed_s))
  ⟨branch_loss, speed_loss,
    branch_weight * branch_loss + speed_weight * speed_loss⟩

/-- `train`, simple mode (`args.net_structure == 1`), main.py lines
209-212, with `criterion = nn.MSELoss()`:

    branch_loss = criterion(branches_out*mask, target) * 4
    speed_loss = criterion(pred_speed, speed)
-/
def train_batch_simple (branch_weight speed_weight : ℚ)
    (branches_out target : List ℚ) (pred_speed speed : List ℚ)
    (mask : List ℚ) : BatchLosses :=
  let branch_loss := tmean (tsq (tsub (tmul branches_out mask) target)) * 4
  let speed_loss := tmean (tsq (tsub pred_speed speed))
  ⟨branch_loss, speed_loss,
    branch_weight * branch_loss + speed_weight * speed_loss⟩

/-- `evaluate`, main.py lines 283-294: here the regularizer added inside
the branch loss is `log_var_control` (unlike `train`, which adds
`log_var_speed`).  As in `train_batch_uncertainty`, `log_var_speed_s`
is the speed-shaped broadcast of the source's `log_var_speed`. -/
def eval_batch (E : ℚ → ℚ) (branch_weight speed_weight : ℚ)
    (branches_out target log_var_control : List ℚ)
    (pred_speed speed log_var_speed_s : List ℚ) (mask : List ℚ) :
    BatchLosses :=
  let branch_loss :=
    tmean (tmul (tscale (1/2)
      (tadd (tmul (texp E (tneg log_var_control))
        (tsq (tsub branches_out target))) log_var_control)) mask) * 4
  let speed_loss :=
    tmean (tscale (1/2)
      (tadd (tmul (texp E (tneg log_var_speed_s))
        (tsq (tsub pred_speed speed))) log_var_speed_s))
  ⟨branch_loss, speed_loss,
    branch_weight * branch_loss + speed_weight * speed_loss⟩

/-- A concrete "exponential" with `expOne 0 = 1`, used to instantiate
the abstract `E` on concrete inputs. -/
def expOne : ℚ → ℚ := fun x => x + 1

/-! ### Metric accumulator (`helper.py`, class `AverageMeter`) -/

/-- State of `AverageMeter`: current value, running average, running
sum and running count. -/
structure AverageMeter where
  val : ℚ
  avg : ℚ
  sum : ℚ
  count : ℚ
deriving DecidableEq

/-- `AverageMeter.reset` (helper.py lines 15-19). -/
def AverageMeter.reset : AverageMeter := ⟨0, 0, 0, 0⟩

/-- `AverageMeter.update(val, n)` (helper.py lines 21-25); the Python
default for `n` is 1, every call site in this core passes it
explicitly. -/
def AverageMeter.update (m : AverageMeter) (v n : ℚ) : AverageMeter :=
  let s := m.sum + v * n
  let c := m.count + n
  ⟨v, s / c, s, c⟩

/-- Fold a sequence of `(value, weight)` updates into a meter. -/
def runUpdates (m : AverageMeter) (us : List (ℚ × ℚ)) : AverageMeter :=
  us.foldl (fun acc p => acc.update p.1 p.2) m

/-! ### Best-metric tracking (`main.py` lines 107, 150-151)

`best_prec` starts at `math.inf`; each epoch does
`is_best = prec < best_prec` and `best_prec = min(prec, best_prec)`.
A Python float that is either `inf` or a finite value is modelled by
`PFloat`. -/

/-- A Python float restricted to the values this loop produces:
`inf` or a finite (rational) value. -/
inductive PFloat where
  | inf : PFloat
  | fin : ℚ → PFloat
deriving DecidableEq

/-- `prec < best_prec` for a finite `prec` (Python `<` against
`math.inf` is always true). -/
def precLt (prec : ℚ) : PFloat → Bool
  | .inf => true
  | .fin b => decide (prec < b)

/-- `min(prec, best_prec)` for a finite `prec`. -/
def precMin (prec : ℚ) : PFloat → PFloat
  | .inf => .fin prec
  | .fin b => .fin (min prec b)

/-- One epoch of best-metric tracking: the `is_best` flag and the new
`best_prec` (main.py lines 150-151). -/
def bestStep (best : PFloat) (prec : ℚ) : Bool × PFloat :=
  (precLt prec best, precMin prec best)

/-- Run best-metric tracking over a sequence of evaluation metrics,
collecting each epoch's `(is_best, best_prec)` pair. -/
def bestTrace (best : PFloat) : List ℚ → List (Bool × PFloat)
  | [] => []
  | p :: ps =>
    let s := bestStep best p
    s :: bestTrace s.2 ps

/-! ### Checkpoint persistence (`helper.py` `save_checkpoint`,
`main.py` lines 152-161)

The filesystem is a map from paths to checkpoint records.  The two
paths this core writes are the per-epoch file
`save_weight_dir/{epoch+1}_{id}.pth` and the best file
`save_models/{id}_best.pth`; the latter is keyed by the run id alone. -/

/-- A path written by the checkpoint logic. -/
inductive Path where
  | epochFile (id : String) (epoch : Nat)
  | bestFile (id : String)
deriving DecidableEq

/-- A full checkpoint record (the dict saved at main.py lines 153-157);
model, scheduler and optimizer state dicts are abstract tokens. -/
structure Checkpoint where
  epoch : Nat
  state_dict : Nat
  best_prec : PFloat
  scheduler : Nat
  optimizer : Nat
deriving DecidableEq

/-- The filesystem as seen by the checkpoint logic. -/
def Store : Type := Path → Option Checkpoint

/-- `save_checkpoint(state, id_, is_best, filename)` (helper.py lines
27-33): `torch.save(state, filename)`, then if `is_best` copy the file
just written to `save_models/{id_}_best.pth`. -/
def save_checkpoint (state : Checkpoint) (id_ : String) (is_best : Bool)
    (filename : Path) (store : Store) : Store :=
  let written : Store := fun p => if p = filename then some state else store p
  if is_best then
    fun p => if p = Path.bestFile id_ then written filename else written p
  else written

/-- End-of-epoch bookkeeping of `main` (lines 150-161): compute
`is_best`, update `best_prec`, then call `save_checkpoint` with the
record for this epoch at the per-epoch path. -/
def epochEnd (id_ : String) (epoch : Nat) (model sched opt : Nat)
    (prec : ℚ) (best : PFloat) (store : Store) : PFloat × Store :=
  let is_best := precLt prec best
  let best2 := precMin prec best
  let record : Checkpoint := ⟨epoch + 1, model, best2, sched, opt⟩
  (best2, save_checkpoint record id_ is_best
    (Path.epochFile id_ (epoch + 1)) store)

/-! ### Orchestrator control flow (`main`, lines 132-161)

The observable actions of `main` are modelled as an event trace.  The
learning-rate scheduler is reduced to its step counter: construction
leaves it at 0 and each `lr_scheduler.step()` adds 1; the "schedule
value" in effect at any moment is indexed by this counter. -/

/-- An observable action of the orchestrator. -/
inductive Ev where
  | schedStep
  | trainRun (epoch : Nat) (schedCount : Nat)
  | evalRun (epoch : Nat)
  | saveCk (epoch : Nat) (isBest : Bool)
  | logNoCheckpoint
deriving DecidableEq

/-- The epoch loop of `main` (lines 143-161), as the trace of events it
emits: each iteration steps the scheduler, then trains (under the
post-step counter), then evaluates, then saves a checkpoint.  `metrics`
gives the scalar returned by `evaluate` at each epoch; `fuel` is the
number of remaining iterations. -/
def loopAux (metrics : Nat → ℚ) :
    Nat → Nat → Nat → PFloat → List Ev
  | 0, _, _, _ => []
  | fuel + 1, e, c, best =>
    let c2 := c + 1
    let prec := metrics e
    let is_best := precLt prec best
    let best2 := precMin prec best
    Ev.schedStep :: Ev.trainRun e c2 :: Ev.evalRun e ::
      Ev.saveCk e is_best :: loopAux metrics fuel (e + 1) c2 best2

/-- The full training loop `for epoch in range(start_epoch, epochs)`,
starting from a freshly constructed scheduler (counter 0) and
`best_prec = math.inf`. -/
def mainTrace (metrics : Nat → ℚ) (start epochs : Nat) : List Ev :=
  loopAux metrics (epochs - start) start 0 PFloat.inf

/-- The train-vs-evaluate-only dispatch of `main` (lines 132-161): in
evaluate mode with no checkpoint file at the resume path, log and
return; otherwise run one evaluation; in training mode run the epoch
loop. -/
def mainDispatch (evaluate resumeIsFile : Bool) (metrics : Nat → ℚ)
    (start epochs : Nat) : List Ev :=
  if evaluate then
    if resumeIsFile then [Ev.evalRun 0] else [Ev.logNoCheckpoint]
  else mainTrace metrics start epochs

/-- Is this event an invocation of an epoch runner? -/
def Ev.isRunner : Ev → Bool
  | .trainRun _ _ => true
  | .evalRun _ => true
  | _ => false

/-- Is this event a checkpoint write? -/
def Ev.isSave : Ev → Bool
  | .saveCk _ _ => true
  | _ => false

/-! ### Periodic summary emission (`train`, lines 177, 228-234)

`train` emits a summary snapshot when `i % args.print_freq == 0 or
i+1 == len(loader)`, keyed by `step + i` with
`step = epoch * len(loader)`. -/

/-- The emission condition of `train` (line 228) for batch index `i`
out of `n` batches, with print frequency `N`. -/
def emitted (N n i : Nat) : Bool := (i % N == 0) || (i + 1 == n)

/-- The global steps at which one training epoch emits summaries
(line 177: `step = epoch*len(loader)`; line 229: key `step + i`). -/
def trainEmitSteps (N n epoch : Nat) : List Nat :=
  ((List.range n).filter (fun i => emitted N n i)).map
    (fun i => epoch * n + i)

/-- All summary-emission steps over a run's epochs
`start, start+1, ..., epochs-1`, in execution order. -/
def runEmitSteps (N n start epochs : Nat) : List Nat :=
  ((List.range' start (epochs - start)).map
    (fun e => trainEmitSteps N n e)).flatten

/-! ### Simple-mode training epoch (`train`, lines 164-234, with
`args.net_structure == 1`)

The eight meters are created fresh (reset) at the top of `train`; in
simple mode only the uncertain/branch/speed loss meters are updated,
while the emission at lines 229-234 still reads the `val` of all six
scalar series.  Model outputs are abstracted to the per-batch
`(branch_loss, speed_loss)` values they induce. -/

/-- The six meters whose `val` is emitted to the summary writer. -/
structure TrainMeters where
  uncertain : AverageMeter
  ori : AverageMeter
  branch : AverageMeter
  speed : AverageMeter
  controlU : AverageMeter
  speedU : AverageMeter

/-- All meters freshly constructed (lines 165-172). -/
def initMeters : TrainMeters :=
  ⟨AverageMeter.reset, AverageMeter.reset, AverageMeter.reset,
    AverageMeter.reset, AverageMeter.reset, AverageMeter.reset⟩

/-- Per-batch meter updates in simple mode (lines 209-216): only the
uncertain, branch and speed meters are updated, each weighted by
`args.batch_size`. -/
def simpleBatchUpdate (bw sw bs : ℚ) (bl sl : ℚ) (ms : TrainMeters) :
    TrainMeters :=
  let ul := bw * bl + sw * sl
  { ms with
    uncertain := ms.uncertain.update ul bs
    branch := ms.branch.update bl bs
    speed := ms.speed.update sl bs }

/-- One emitted snapshot: the `val` fields written at lines 229-234. -/
structure Snapshot where
  branch_val : ℚ
  speed_val : ℚ
  uncertain_val : ℚ
  ori_val : ℚ
  controlU_val : ℚ
  speedU_val : ℚ
deriving DecidableEq

/-- The snapshot the emission reads from the current meters. -/
def snapshotOf (ms : TrainMeters) : Snapshot :=
  ⟨ms.branch.val, ms.speed.val, ms.uncertain.val, ms.ori.val,
    ms.controlU.val, ms.speedU.val⟩

/-- The batch loop of a simple-mode training epoch: `i` is the current
batch index, `n` the epoch's batch count, `batches` the per-batch
`(branch_loss, speed_loss)` values; returns the emitted snapshots in
order. -/
def goSimple (bw sw bs : ℚ) (N n : Nat) :
    Nat → TrainMeters → List (ℚ × ℚ) → List Snapshot
  | _, _, [] => []
  | i, ms, b :: rest =>
    let ms2 := simpleBatchUpdate bw sw bs b.1 b.2 ms
    let tail := goSimple bw sw bs N n (i + 1) ms2 rest
    if emitted N n i then snapshotOf ms2 :: tail else tail

/-- A whole simple-mode training epoch, from freshly reset meters. -/
def runSimple (bw sw bs : ℚ) (N : Nat) (batches : List (ℚ × ℚ)) :
    List Snapshot :=
  goSimple bw sw bs N batches.length 0 initMeters batches

/-! ## Helper lemmas -/

/-- Unfolding `runUpdates` over a cons. -/
theorem runUpdates_cons (m : AverageMeter) (p : ℚ × ℚ)
    (us : List (ℚ × ℚ)) :
    runUpdates m (p :: us) = runUpdates (m.update p.1 p.2) us := rfl

/-- Running sum, count, last value and average of a fold of updates. -/
theorem runUpdates_spec (us : List (ℚ × ℚ)) (m : AverageMeter) :
    (runUpdates m us).sum = m.sum + (us.map fun p => p.1 * p.2).sum
    ∧ (runUpdates m us).count = m.count + (us.map Prod.snd).sum
    ∧ ∀ p, us.getLast? = some p →
        (runUpdates m us).val = p.1
        ∧ (runUpdates m us).avg
            = (runUpdates m us).sum / (runUpdates m us).count := by
  induction us generalizing m with
  | nil => simp [runUpdates]
  | cons p rest ih =>
    rcases ih (m.update p.1 p.2) with ⟨hs, hc, hlast⟩
    refine ⟨?_, ?_, ?_⟩
    · rw [runUpdates_cons, hs]
      simp [AverageMeter.update]
      ring
    · rw [runUpdates_cons, hc]
      simp [AverageMeter.update]
      ring
    · intro q hq
      cases rest with
      | nil =>
        simp only [List.getLast?_singleton, Option.some.injEq] at hq
        subst hq
        simp [runUpdates, AverageMeter.update]
      | cons r rest2 =>
        rw [List.getLast?_cons_cons] at hq
        rw [runUpdates_cons]
        exact hlast q hq

/-- Length of an elementwise square of a difference. -/
theorem tsq_tsub_length (a b : List ℚ) (h : b.length = a.length) :
    (tsq (tsub a b)).length = a.length := by
  simp [tsq, tsub, h]

/-- Multiplying elementwise by an all-ones tensor is the identity. -/
theorem tmul_replicate_one :
    ∀ (xs : List ℚ) (k : Nat), xs.length = k →
      tmul (List.replicate k 1) xs = xs := by
  intro xs
  induction xs with
  | nil => intro k h; subst h; rfl
  | cons x xs ih =>
    intro k h
    cases k with
    | zero => simp at h
    | succ k =>
      have hx := ih k (by simpa using h)
      simp only [List.replicate_succ, tmul, List.zipWith_cons_cons, one_mul]
      simpa [tmul] using hx

/-- Adding an all-zeros tensor elementwise is the identity. -/
theorem tadd_replicate_zero :
    ∀ (xs : List ℚ) (k : Nat), xs.length = k →
      tadd xs (List.replicate k 0) = xs := by
  intro xs
  induction xs with
  | nil => intro k h; subst h; rfl
  | cons x xs ih =>
    intro k h
    cases k with
    | zero => simp at h
    | succ k =>
      have hx := ih k (by simpa using h)
      simp only [List.replicate_succ, tadd, List.zipWith_cons_cons, add_zero]
      simpa [tadd] using hx

/-- Negating an all-zeros tensor gives an all-zeros tensor. -/
theorem tneg_replicate_zero (k : Nat) :
    tneg (List.replicate k (0 : ℚ)) = List.replicate k 0 := by
  simp [tneg]

/-- Exponentiating an all-zeros tensor elementwise. -/
theorem texp_replicate_zero (E : ℚ → ℚ) (k : Nat) :
    texp E (List.replicate k (0 : ℚ)) = List.replicate k (E 0) := by
  simp [texp]

/-- The mean of a scalar multiple is the scalar multiple of the mean. -/
theorem tmean_tscale (c : ℚ) (xs : List ℚ) :
    tmean (tscale c xs) = tmean xs * c := by
  have hsum : (xs.map fun x => x * c).sum = xs.sum * c := by
    simpa using List.sum_map_mul_right xs (fun x => x) c
  simp only [tmean, tscale, hsum, List.length_map]
  ring

/-- The invariant the Batch data model imposes on one mask/target
position: the mask entry is zero or one, and a masked-out position
carries a zero target. -/
def maskOk (mi ti : ℚ) : Prop := (mi = 0 ∨ mi = 1) ∧ (mi = 0 → ti = 0)

/-- Under the mask/target invariant, masking the squared error equals
squaring the error of the masked prediction. -/
theorem mask_square_key (c : ℚ) {m t : List ℚ}
    (hf : List.Forall₂ maskOk m t) :
    ∀ bo : List ℚ, t.length = bo.length →
      tmul (tscale c (tsq (tsub bo t))) m
        = tscale c (tsq (tsub (tmul bo m) t)) := by
  induction hf with
  | nil =>
    intro bo hlen
    simp [tmul, tsub, tsq, tscale]
  | @cons mi ti ms ts hmt _ ih =>
    intro bo hlen
    cases bo with
    | nil => simp at hlen
    | cons b bs =>
      have hlen2 : ts.length = bs.length := by simpa using hlen
      have htail := ih bs hlen2
      rcases hmt with ⟨h01, h0⟩
      simp only [tmul, tsub, tsq, tscale, List.zipWith_cons_cons,
        List.map_cons] at htail ⊢
      refine congrArg₂ List.cons ?_ htail
      rcases h01 with h | h
      · have ht0 : ti = 0 := h0 h
        subst h; subst ht0; ring
      · subst h; ring

/-! ## Claims -/

/-- Claim C1: in uncertainty mode, the training branch loss is
`mean((exp(-log_var_control) * (branch_pred - target)^2 + log_var_speed)
* 0.5 * mask) * 4` (the regularizer term being `log_var_speed`,
preserved literally), the training speed loss is
`mean((exp(-log_var_speed) * (speed_pred - speed)^2 + log_var_speed)
* 0.5)`, and the total loss is
`branch_weight * branch_loss + speed_weight * speed_loss`. -/
theorem C1_train_uncertainty_loss_formulas (E : ℚ → ℚ) (bw sw : ℚ)
    (bo t lvc lvs ps s lvss m : List ℚ) :
    (train_batch_uncertainty E bw sw bo t lvc lvs ps s lvss m).branch_loss
      = tmean (tmul (tscale (1/2)
          (tadd (tmul (texp E (tneg lvc)) (tsq (tsub bo t))) lvs)) m) * 4
    ∧ (train_batch_uncertainty E bw sw bo t lvc lvs ps s lvss m).speed_loss
      = tmean (tscale (1/2)
          (tadd (tmul (texp E (tneg lvss)) (tsq (tsub ps s))) lvss))
    ∧ (train_batch_uncertainty E bw sw bo t lvc lvs ps s lvss m).uncertain_loss
      = bw * (train_batch_uncertainty E bw sw bo t lvc lvs ps s lvss m).branch_loss
        + sw * (train_batch_uncertainty E bw sw bo t lvc lvs ps s lvss m).speed_loss :=
  ⟨rfl, rfl, rfl⟩

/-- Claim C4: starting from best metric `+infinity`, with
`is_best = (metric < best)` and `best = min(metric, best)` each epoch,
the metric sequence `[5, 3, 4, 2]` yields the best-metric trace
`[5, 3, 3, 2]` and `is_best` flags `[true, true, false, true]`. -/
theorem C4_best_metric_trace :
    bestTrace PFloat.inf [5, 3, 4, 2] =
      [(true, PFloat.fin 5), (true, PFloat.fin 3),
        (false, PFloat.fin 3), (true, PFloat.fin 2)] := by
  norm_num [bestTrace, bestStep, precLt, precMin, min_def]

/-- Claim C7: `reset()` zeroes value, sum and count, and after any
sequence of `update(value_i, weight_i)` calls with positive weights
starting from reset, `sum` is `Σ value_i * weight_i`, `count` is
`Σ weight_i`, `avg` is their quotient, and `val` is the last value. -/
theorem C7_average_meter (us : List (ℚ × ℚ))
    (hw : ∀ p ∈ us, 0 < p.2) :
    AverageMeter.reset.val = 0 ∧ AverageMeter.reset.sum = 0
    ∧ AverageMeter.reset.count = 0
    ∧ (runUpdates AverageMeter.reset us).sum
        = (us.map fun p => p.1 * p.2).sum
    ∧ (runUpdates AverageMeter.reset us).count = (us.map Prod.snd).sum
    ∧ (runUpdates AverageMeter.reset us).avg
        = (us.map fun p => p.1 * p.2).sum / (us.map Prod.snd).sum
    ∧ ∀ p, us.getLast? = some p →
        (runUpdates AverageMeter.reset us).val = p.1 := by
  rcases runUpdates_spec us AverageMeter.reset with ⟨hs, hc, hlast⟩
  have hs0 : (runUpdates AverageMeter.reset us).sum
      = (us.map fun p => p.1 * p.2).sum := by
    rw [hs]; simp [AverageMeter.reset]
  have hc0 : (runUpdates AverageMeter.reset us).count
      = (us.map Prod.snd).sum := by
    rw [hc]; simp [AverageMeter.reset]
  refine ⟨rfl, rfl, rfl, hs0, hc0, ?_, fun p hp => (hlast p hp).1⟩
  cases us with
  | nil => simp [runUpdates, AverageMeter.reset]
  | cons p rest =>
    have hne : p :: rest ≠ [] := by simp
    have hex : ∃ q, (p :: rest).getLast? = some q :=
      ⟨(p :: rest).getLast hne, List.getLast?_eq_getLast _ hne⟩
    rcases hex with ⟨q, hq⟩
    rw [(hlast q hq).2, hs0, hc0]

/-- Claim C2 fails on the code: at a concrete input whose control and
speed log-variances differ, `evaluate` (which adds `log_var_control`
inside its branch loss) does not reproduce the branch loss or the
combined loss computed by `train` (which adds `log_var_speed`). -/
theorem C2_counterexample :
    ¬ ((eval_batch expOne 1 1 [0] [0] [0] [0] [0] [1] [1]).branch_loss
        = (train_batch_uncertainty expOne 1 1
            [0] [0] [0] [1] [0] [0] [1] [1]).branch_loss
      ∧ (eval_batch expOne 1 1 [0] [0] [0] [0] [0] [1] [1]).speed_loss
        = (train_batch_uncertainty expOne 1 1
            [0] [0] [0] [1] [0] [0] [1] [1]).speed_loss
      ∧ (eval_batch expOne 1 1 [0] [0] [0] [0] [0] [1] [1]).uncertain_loss
        = (train_batch_uncertainty expOne 1 1
            [0] [0] [0] [1] [0] [0] [1] [1]).uncertain_loss) := by
  intro h
  have h1 := h.1
  norm_num [eval_batch, train_batch_uncertainty, tmean, tmul, tadd,
    tscale, tsq, tsub, texp, tneg, expOne] at h1

/-- Claim C2, amended: the evaluation runner computes the same speed
loss as the training runner on every input, and its branch loss equals
the training branch-loss formula with the regularizer `log_var_speed`
replaced by `log_var_control`; hence all three losses coincide exactly
when the (branch-shaped) control and speed log-variances are equal. -/
theorem C2_amended_eval_vs_train (E : ℚ → ℚ) (bw sw : ℚ)
    (bo t lvc lvs ps s lvss m : List ℚ) :
    (eval_batch E bw sw bo t lvc ps s lvss m).speed_loss
      = (train_batch_uncertainty E bw sw bo t lvc lvs ps s lvss m).speed_loss
    ∧ (eval_batch E bw sw bo t lvc ps s lvss m).branch_loss
      = (train_batch_uncertainty E bw sw bo t lvc lvc ps s lvss m).branch_loss
    ∧ (lvc = lvs →
        eval_batch E bw sw bo t lvc ps s lvss m
          = train_batch_uncertainty E bw sw bo t lvc lvs ps s lvss m) :=
  ⟨rfl, rfl, fun h => by subst h; rfl⟩

/-- Witness for C2 (amended): with equal log-variances, `evaluate` and
`train` produce identical batch losses at a concrete input. -/
theorem C2_amended_eval_vs_train_witness :
    eval_batch expOne 1 1 [0] [0] [0] [0] [0] [0] [1]
      = train_batch_uncertainty expOne 1 1 [0] [0] [0] [0] [0] [0] [0] [1] :=
  (C2_amended_eval_vs_train expOne 1 1
    [0] [0] [0] [0] [0] [0] [0] [1]).2.2 rfl

/-- Claim C3 fails on the code as stated for arbitrary inputs: with
both log-variances zero, a masked-out position with a nonzero target
contributes `target^2` to the simple-mode branch loss but nothing to
the uncertainty-mode branch loss. -/
theorem C3_counterexample :
    ¬ ((train_batch_uncertainty expOne 1 1
          [0] [1] [0] [0] [0] [0] [0] [0]).branch_loss
        = (1/2) * (train_batch_simple 1 1 [0] [1] [0] [0] [0]).branch_loss
      ∧ (train_batch_uncertainty expOne 1 1
          [0] [1] [0] [0] [0] [0] [0] [0]).speed_loss
        = (1/2) * (train_batch_simple 1 1 [0] [1] [0] [0] [0]).speed_loss) := by
  intro h
  have h1 := h.1
  norm_num [train_batch_uncertainty, train_batch_simple, tmean, tmul,
    tadd, tscale, tsq, tsub, texp, tneg, expOne] at h1

/-- Claim C3, amended: for inputs satisfying the Batch data-model
invariant — mask entries zero/one with a zero target wherever the mask
is zero — and with `exp 0 = 1`, zero log-variances make the
uncertainty-mode branch loss equal `0.5` times the simple-mode branch
loss, and the uncertainty-mode speed loss equal `0.5` times the
simple-mode speed loss (the speed half needs no mask condition). -/
theorem C3_amended_zero_logvar_reduction (E : ℚ → ℚ) (bw sw : ℚ)
    (bo t ps s m : List ℚ) (hE : E 0 = 1)
    (ht : t.length = bo.length) (hs : s.length = ps.length)
    (hm : List.Forall₂ maskOk m t) :
    (train_batch_uncertainty E bw sw bo t
        (List.replicate bo.length 0) (List.replicate bo.length 0)
        ps s (List.replicate ps.length 0) m).branch_loss
      = (1/2) * (train_batch_simple bw sw bo t ps s m).branch_loss
    ∧ (train_batch_uncertainty E bw sw bo t
        (List.replicate bo.length 0) (List.replicate bo.length 0)
        ps s (List.replicate ps.length 0) m).speed_loss
      = (1/2) * (train_batch_simple bw sw bo t ps s m).speed_loss := by
  have hlenb : (tsq (tsub bo t)).length = bo.length := tsq_tsub_length bo t ht
  have hlens : (tsq (tsub ps s)).length = ps.length := tsq_tsub_length ps s hs
  constructor
  · show tmean (tmul (tscale (1/2)
        (tadd (tmul (texp E (tneg (List.replicate bo.length 0)))
          (tsq (tsub bo t))) (List.replicate bo.length 0))) m) * 4
      = (1/2) * (tmean (tsq (tsub (tmul bo m) t)) * 4)
    rw [tneg_replicate_zero, texp_replicate_zero, hE,
      tmul_replicate_one _ _ hlenb, tadd_replicate_zero _ _ hlenb,
      mask_square_key (1/2) hm bo ht, tmean_tscale]
    ring
  · show tmean (tscale (1/2)
        (tadd (tmul (texp E (tneg (List.replicate ps.length 0)))
          (tsq (tsub ps s))) (List.replicate ps.length 0)))
      = (1/2) * tmean (tsq (tsub ps s))
    rw [tneg_replicate_zero, texp_replicate_zero, hE,
      tmul_replicate_one _ _ hlens, tadd_replicate_zero _ _ hlens,
      tmean_tscale]
    ring

/-- Witness for C3 (amended) at a concrete input with an all-ones
mask. -/
theorem C3_amended_zero_logvar_reduction_witness :
    (train_batch_uncertainty expOne 1 1 [2] [1]
        (List.replicate 1 0) (List.replicate 1 0)
        [3] [1] (List.replicate 1 0) [1]).branch_loss
      = (1/2) * (train_batch_simple 1 1 [2] [1] [3] [1] [1]).branch_loss
    ∧ (train_batch_uncertainty expOne 1 1 [2] [1]
        (List.replicate 1 0) (List.replicate 1 0)
        [3] [1] (List.replicate 1 0) [1]).speed_loss
      = (1/2) * (train_batch_simple 1 1 [2] [1] [3] [1] [1]).speed_loss :=
  C3_amended_zero_logvar_reduction expOne 1 1 [2] [1] [3] [1] [1]
    (by norm_num [expOne]) rfl rfl
    (List.Forall₂.cons ⟨Or.inr rfl, by norm_num⟩ List.Forall₂.nil)

/-- Witness for C7 at a concrete update sequence with positive
weights. -/
theorem C7_average_meter_witness :
    (runUpdates AverageMeter.reset [((3 : ℚ), 1), (5, 2)]).avg = 13 / 3
    ∧ (runUpdates AverageMeter.reset [((3 : ℚ), 1), (5, 2)]).val = 5 := by
  have h := C7_average_meter [((3 : ℚ), 1), (5, 2)] (by norm_num)
  constructor
  · rw [h.2.2.2.2.2.1]; norm_num
  · exact h.2.2.2.2.2.2 (5, 2) rfl

/-- Claim C5: at the end of an epoch the orchestrator persists the full
checkpoint record for that epoch at the per-epoch path, and exactly
when `is_best` holds it additionally overwrites the run's single
best-checkpoint record (keyed by run id alone) with a copy of that
just-persisted snapshot; when `is_best` is false the best record is
untouched. -/
theorem C5_checkpoint_persistence (id_ : String)
    (epoch model sched opt : Nat) (prec : ℚ) (best : PFloat)
    (store : Store) :
    (epochEnd id_ epoch model sched opt prec best store).2
        (Path.epochFile id_ (epoch + 1))
      = some ⟨epoch + 1, model, precMin prec best, sched, opt⟩
    ∧ (precLt prec best = true →
        (epochEnd id_ epoch model sched opt prec best store).2
            (Path.bestFile id_)
          = some ⟨epoch + 1, model, precMin prec best, sched, opt⟩)
    ∧ (precLt prec best = false →
        (epochEnd id_ epoch model sched opt prec best store).2
            (Path.bestFile id_)
          = store (Path.bestFile id_)) := by
  cases h : precLt prec best <;>
    simp [epochEnd, save_checkpoint, h]

/-- Witness for C5: on the first epoch (best metric still infinite) the
best-checkpoint record is overwritten with the epoch-1 snapshot. -/
theorem C5_checkpoint_persistence_witness :
    (epochEnd "run" 0 0 0 0 3 PFloat.inf (fun _ => none)).2
        (Path.bestFile "run")
      = some ⟨1, 0, PFloat.fin 3, 0, 0⟩ :=
  (C5_checkpoint_persistence "run" 0 0 0 0 3 PFloat.inf
    (fun _ => none)).2.1 rfl

/-- Claim C6: invoked in evaluate-only mode with a resume path that is
not an existing checkpoint file, the orchestrator only logs the error:
it returns without invoking any epoch runner and without writing any
checkpoint. -/
theorem C6_evaluate_only_invalid_resume (metrics : Nat → ℚ)
    (start epochs : Nat) :
    mainDispatch true false metrics start epochs = [Ev.logNoCheckpoint]
    ∧ (mainDispatch true false metrics start epochs).all
        (fun e => !(e.isRunner || e.isSave)) = true :=
  ⟨rfl, rfl⟩

/-- Positions `4k` and `4k+1` of the epoch-loop trace: a scheduler step
immediately followed by that epoch's training pass, which therefore
runs under the schedule counter advanced `k+1` times. -/
theorem loopAux_get (metrics : Nat → ℚ) :
    ∀ (k fuel e c : Nat) (best : PFloat), k < fuel →
      (loopAux metrics fuel e c best).get? (4 * k) = some Ev.schedStep
      ∧ (loopAux metrics fuel e c best).get? (4 * k + 1)
          = some (Ev.trainRun (e + k) (c + k + 1)) := by
  intro k
  induction k with
  | zero =>
    intro fuel e c best h
    cases fuel with
    | zero => omega
    | succ f => simp [loopAux]
  | succ k ih =>
    intro fuel e c best h
    cases fuel with
    | zero => omega
    | succ f =>
      have hk : k < f := by omega
      have htail := ih f (e + 1) (c + 1) (precMin (metrics e) best) hk
      have h4 : 4 * (k + 1) = 4 * k + 1 + 1 + 1 + 1 := by ring
      have h5 : 4 * (k + 1) + 1 = 4 * k + 1 + 1 + 1 + 1 + 1 := by ring
      constructor
      · rw [h4]
        simp only [loopAux, List.get?_cons_succ]
        exact htail.1
      · rw [h5]
        simp only [loopAux, List.get?_cons_succ]
        rw [htail.2]
        have he : e + 1 + k = e + (k + 1) := by omega
        have hc : c + 1 + k + 1 = c + (k + 1) + 1 := by omega
        rw [he, hc]

/-- Claim C8: in every iteration of the epoch loop over
`[start_epoch, total_epochs)` the learning-rate schedule is stepped
immediately before that epoch's training pass, so the training pass of
the `k`-th iteration runs under schedule counter `k+1`; in particular
epoch 0 (with `start_epoch = 0`) trains under the second schedule
value, not the initial one. -/
theorem C8_sched_step_precedes_training (metrics : Nat → ℚ)
    (start epochs k : Nat) (h : start + k < epochs) :
    (mainTrace metrics start epochs).get? (4 * k) = some Ev.schedStep
    ∧ (mainTrace metrics start epochs).get? (4 * k + 1)
        = some (Ev.trainRun (start + k) (k + 1)) := by
  have hk : k < epochs - start := by omega
  have hmain := loopAux_get metrics k (epochs - start) start 0 PFloat.inf hk
  simpa [mainTrace] using hmain

/-- Witness for C8: with `start_epoch = 0` and one total epoch, the
trace opens with a scheduler step and then trains epoch 0 under
schedule counter 1. -/
theorem C8_sched_step_precedes_training_witness :
    (mainTrace (fun _ => (1 : ℚ)) 0 1).get? 0 = some Ev.schedStep
    ∧ (mainTrace (fun _ => (1 : ℚ)) 0 1).get? 1
        = some (Ev.trainRun 0 1) := by
  have h := C8_sched_step_precedes_training (fun _ => (1 : ℚ)) 0 1 0
    (by norm_num)
  simpa using h

/-- Every step emitted inside epoch `e` lies in `[e*n, e*n + n)`. -/
theorem mem_trainEmitSteps {N n e x : Nat}
    (hx : x ∈ trainEmitSteps N n e) : e * n ≤ x ∧ x < e * n + n := by
  rcases List.mem_map.mp hx with ⟨i, hi, rfl⟩
  rcases List.mem_filter.mp hi with ⟨hir, _⟩
  have : i < n := List.mem_range.mp hir
  omega

/-- The emission steps of one epoch are strictly increasing. -/
theorem trainEmitSteps_pairwise (N n e : Nat) :
    List.Pairwise (· < ·) (trainEmitSteps N n e) := by
  unfold trainEmitSteps
  rw [List.pairwise_map]
  exact ((List.pairwise_lt_range n).filter _).imp
    (fun hab => Nat.add_lt_add_left hab (e * n))

/-- The emission steps of a whole run are strictly increasing. -/
theorem runEmitSteps_pairwise (N n start epochs : Nat) :
    List.Pairwise (· < ·) (runEmitSteps N n start epochs) := by
  unfold runEmitSteps
  rw [List.pairwise_flatten]
  constructor
  · intro l hl
    rcases List.mem_map.mp hl with ⟨e, _, rfl⟩
    exact trainEmitSteps_pairwise N n e
  · rw [List.pairwise_map]
    refine (List.pairwise_lt_range' start (epochs - start)).imp ?_
    intro e1 e2 h12 x hx y hy
    have hxb := (mem_trainEmitSteps hx).2
    have hyb := (mem_trainEmitSteps hy).1
    have h1 : e1 + 1 ≤ e2 := h12
    calc x < e1 * n + n := hxb
      _ = (e1 + 1) * n := by ring
      _ ≤ e2 * n := Nat.mul_le_mul h1 (le_refl n)
      _ ≤ y := hyb

/-- Claim C9: during a training epoch a summary snapshot is emitted
exactly on batch indices that are multiples of the print frequency and
on the final batch, keyed by the global step
`epoch * batches_per_epoch + batch_index`, and these global steps are
strictly increasing across all emissions of a run. -/
theorem C9_summary_emissions (N n i start epochs : Nat)
    (hN : 0 < N) (hi : i < n) :
    (emitted N n i = true ↔ (N ∣ i ∨ i = n - 1))
    ∧ List.Pairwise (· < ·) (runEmitSteps N n start epochs) := by
  refine ⟨?_, runEmitSteps_pairwise N n start epochs⟩
  simp only [emitted, Bool.or_eq_true, beq_iff_eq]
  constructor
  · rintro (h | h)
    · exact Or.inl (Nat.dvd_of_mod_eq_zero h)
    · right; omega
  · rintro (h | h)
    · exact Or.inl (Nat.dvd_iff_mod_eq_zero.mp h)
    · right; omega

/-- Witness for C9 at concrete print frequency 2, epoch length 3. -/
theorem C9_summary_emissions_witness :
    (emitted 2 3 2 = true ↔ (2 ∣ 2 ∨ 2 = 3 - 1))
    ∧ List.Pairwise (· < ·) (runEmitSteps 2 3 0 2) :=
  C9_summary_emissions 2 3 2 0 2 (by norm_num) (by norm_num)

/-- In simple mode the `ori`/`controlU`/`speedU` meters are never
updated, so every emitted snapshot reads their reset value. -/
theorem goSimple_diag_zero (bw sw bs : ℚ) (N n : Nat) :
    ∀ (batches : List (ℚ × ℚ)) (i : Nat) (ms : TrainMeters),
      ms.ori = AverageMeter.reset → ms.controlU = AverageMeter.reset →
      ms.speedU = AverageMeter.reset →
      ∀ snap ∈ goSimple bw sw bs N n i ms batches,
        snap.ori_val = 0 ∧ snap.controlU_val = 0 ∧ snap.speedU_val = 0 := by
  intro batches
  induction batches with
  | nil => intro i ms _ _ _ snap hsnap; simp [goSimple] at hsnap
  | cons b rest ih =>
    intro i ms h1 h2 h3 snap hsnap
    have hms2o : (simpleBatchUpdate bw sw bs b.1 b.2 ms).ori
        = AverageMeter.reset := by simp [simpleBatchUpdate, h1]
    have hms2c : (simpleBatchUpdate bw sw bs b.1 b.2 ms).controlU
        = AverageMeter.reset := by simp [simpleBatchUpdate, h2]
    have hms2s : (simpleBatchUpdate bw sw bs b.1 b.2 ms).speedU
        = AverageMeter.reset := by simp [simpleBatchUpdate, h3]
    simp only [goSimple] at hsnap
    cases hemit : emitted N n i with
    | false =>
      rw [hemit] at hsnap
      simp only [Bool.false_eq_true, if_false] at hsnap
      exact ih (i + 1) _ hms2o hms2c hms2s snap hsnap
    | true =>
      rw [hemit] at hsnap
      simp only [if_true] at hsnap
      rcases List.mem_cons.mp hsnap with rfl | hmem
      · exact ⟨by simp [snapshotOf, hms2o, AverageMeter.reset],
          by simp [snapshotOf, hms2c, AverageMeter.reset],
          by simp [snapshotOf, hms2s, AverageMeter.reset]⟩
      · exact ih (i + 1) _ hms2o hms2c hms2s snap hmem

/-- Claim C10: in simple mode the training epoch still emits the
`ori_loss`, control-uncertainty and speed-uncertainty series on every
print-interval batch, but never updates their accumulators, so every
emitted value of those three series is zero (the reset state); the
emitted snapshot list is nonempty whenever the epoch has a batch. -/
theorem C10_simple_mode_zero_diagnostics (bw sw bs : ℚ) (N : Nat)
    (batches : List (ℚ × ℚ)) :
    (∀ snap ∈ runSimple bw sw bs N batches,
        snap.ori_val = 0 ∧ snap.controlU_val = 0 ∧ snap.speedU_val = 0)
    ∧ (batches ≠ [] → runSimple bw sw bs N batches ≠ []) := by
  constructor
  · intro snap hsnap
    exact goSimple_diag_zero bw sw bs N batches.length batches 0 initMeters
      rfl rfl rfl snap hsnap
  · intro hne
    cases batches with
    | nil => exact absurd rfl hne
    | cons b rest => simp [runSimple, goSimple, emitted]

/-- Witness for C10 on a one-batch epoch in simple mode. -/
theorem C10_simple_mode_zero_diagnostics_witness :
    runSimple 1 1 1 1 [((1 : ℚ), 2)] ≠ []
    ∧ (snapshotOf (simpleBatchUpdate 1 1 1 1 2 initMeters)).ori_val = 0 := by
  have h := C10_simple_mode_zero_diagnostics 1 1 1 1 [((1 : ℚ), 2)]
  refine ⟨h.2 (by simp), ?_⟩
  have hmem : snapshotOf (simpleBatchUpdate 1 1 1 1 2 initMeters)
      ∈ runSimple 1 1 1 1 [((1 : ℚ), 2)] := by
    simp [runSimple, goSimple, emitted]
  exact (h.1 _ hmem).1

end CarlaCIL
